import Mathlib

/-!
Shallow embedding of the spin-the-match wheel application (src/src/App.tsx):
the segment model, the spin-resolution angle arithmetic, the responsive
wheel-size computation, and the UI state machine (spin click, transitionend,
reveal timer, reset, dismiss, resize), together with theorems checking the
specification's claims against it.

JavaScript numbers are modelled by the rationals.  The JS remainder
operator (truncated division, sign of the dividend) and JS string trim
are modelled explicitly so that every definition is executable.
-/

namespace SpinTheMatch

/-- A team: name and colour, as in the Team interface of the source. -/
structure Team where
  name : String
  color : String
deriving DecidableEq

/-- The type tag of an outcome: team1, team2 or draw. -/
inductive OutcomeType where
  | team1
  | team2
  | draw
deriving DecidableEq

/-- An outcome segment: label plus type tag, as in the Outcome interface. -/
structure Outcome where
  label : String
  type : OutcomeType
deriving DecidableEq

/-- The ordered outcome list of the source: team1, DRAW, team2. -/
def outcomes (t1 t2 : Team) : List Outcome :=
  [⟨t1.name, .team1⟩, ⟨"DRAW", .draw⟩, ⟨t2.name, .team2⟩]

/-- JS String.prototype.trim: drop leading and trailing whitespace.
Modelled structurally on the character list so that it is kernel
executable. -/
def jsTrim (s : String) : String :=
  ⟨((s.data.dropWhile Char.isWhitespace).reverse.dropWhile Char.isWhitespace).reverse⟩

/-- JS remainder a % n on numbers: a - n * truncate (a / n), truncation
toward zero (floor of a nonnegative quotient, ceiling of a negative one).
The source only applies it with positive n. -/
def jsMod (a n : ℚ) : ℚ :=
  a - n * (if 0 ≤ a / n then (⌊a / n⌋ : ℚ) else (⌈a / n⌉ : ℚ))

/-- JS remainder on integer-valued operands: sign of the dividend.
The source only applies it with positive n. -/
def jsModZ (a n : ℤ) : ℤ :=
  if 0 ≤ a then a % n else -((-a) % n)

/-- normalizedRotation of handleDone: ((targetRotation % 360) + 360) % 360. -/
def normalizedRotation (t : ℚ) : ℚ :=
  jsMod (jsMod t 360 + 360) 360

/-- The angle (360 - normalizedRotation) % 360 read against the fixed pointer. -/
def effectiveAngle (t : ℚ) : ℚ :=
  jsMod (360 - normalizedRotation t) 360

/-- winningIndex of handleDone:
Math.floor(((360 - normalizedRotation) % 360) / segStep) % segments,
with segStep = 360 / segments and segments the outcome-list length. -/
def winningIndex (segments : ℕ) (t : ℚ) : ℤ :=
  jsModZ ⌊effectiveAngle t / ((360 : ℚ) / (segments : ℚ))⌋ (segments : ℤ)

/-- clamp of the source: Math.max(min, Math.min(max, n)). -/
def clamp (n mn mx : ℚ) : ℚ :=
  max mn (min mx n)

/-- The wheel size computed by the ResizeObserver callback from the
container width w: clamp(Math.floor(w * 0.98), 320, 640). -/
def wheelSizeTarget (w : ℚ) : ℚ :=
  clamp (⌊w * 0.98⌋ : ℚ) 320 640

/-- fullSpins of spin(): 6 + Math.floor(random * 3), the random draw r1
ranging over [0, 1). -/
def fullSpins (r1 : ℚ) : ℤ :=
  6 + ⌊r1 * 3⌋

/-- randomAngle of spin(): random * 360, the random draw r2 ranging over [0, 1). -/
def randomAngle (r2 : ℚ) : ℚ :=
  r2 * 360

/-- The per-spin rotation increment fullSpins * 360 + randomAngle. -/
def spinIncrement (r1 r2 : ℚ) : ℚ :=
  (fullSpins r1 : ℚ) * 360 + randomAngle r2

/-- targetRotation of spin(): rotation + fullSpins * 360 + randomAngle. -/
def targetRotationOf (c r1 r2 : ℚ) : ℚ :=
  c + (fullSpins r1 : ℚ) * 360 + randomAngle r2

/-- The React component state.  pending models the transitionend listener
registered by spin(): the captured target rotation together with the
outcome list snapshotted by the closure.  pendingReveal models the 250 ms
setTimeout scheduled by handleDone; the timers are 250 ms against 5 s
animations, so at most one is ever outstanding. -/
structure AppState where
  team1 : Team
  team2 : Team
  spinning : Bool
  rotation : ℚ
  winner : Option Outcome
  showResult : Bool
  wheelSize : ℚ
  pending : Option (ℚ × List Outcome)
  pendingReveal : Bool
deriving DecidableEq

/-- The state at mount: placeholder teams, rotation 0, wheel size 380. -/
def initState : AppState where
  team1 := ⟨"Team 1", "#4AA1F3"⟩
  team2 := ⟨"Team 2", "#C8102E"⟩
  spinning := false
  rotation := 0
  winner := none
  showResult := false
  wheelSize := 380
  pending := none
  pendingReveal := false

/-- The disable flag of the spin button: spinning, or an empty or
placeholder team name after trimming. -/
def disable (s : AppState) : Bool :=
  s.spinning ||
    jsTrim s.team1.name == "" || jsTrim s.team1.name == "Team 1" ||
    jsTrim s.team2.name == "" || jsTrim s.team2.name == "Team 2"

/-- spin() of the source: no-op while spinning, otherwise set spinning,
clear winner and showResult, and register the transitionend handler with
the computed targetRotation and the current outcome list. -/
def spin (s : AppState) (r1 r2 : ℚ) : AppState :=
  if s.spinning then s
  else
    { s with
      spinning := true
      winner := none
      showResult := false
      pending := some (targetRotationOf s.rotation r1 r2, outcomes s.team1 s.team2) }

/-- A click of the spin button: the button is rendered with
disabled = disable, so a click reaches spin() only when disable is false. -/
def requestSpin (s : AppState) (r1 r2 : ℚ) : AppState :=
  if disable s then s else spin s r1 r2

/-- handleDone of the source, firing on transitionend: store the target
rotation, resolve the winner from the snapshotted outcome list, stop
spinning, deregister the listener and schedule the 250 ms reveal.
A completion signal with no listener registered is ignored. -/
def handleDone (s : AppState) : AppState :=
  match s.pending with
  | none => s
  | some (t, snap) =>
      { s with
        rotation := t
        winner := snap.get? (winningIndex snap.length t).toNat
        spinning := false
        pending := none
        pendingReveal := true }

/-- The 250 ms setTimeout firing: setShowResult(true). -/
def revealFire (s : AppState) : AppState :=
  if s.pendingReveal then { s with showResult := true, pendingReveal := false } else s

/-- reset() of the source: clear winner and showResult. -/
def reset (s : AppState) : AppState :=
  { s with winner := none, showResult := false }

/-- Closing the result modal: setShowResult(false). -/
def dismiss (s : AppState) : AppState :=
  { s with showResult := false }

/-- The ResizeObserver callback recomputing the wheel size from the
reported container width. -/
def resizeStep (s : AppState) (w : ℚ) : AppState :=
  { s with wheelSize := wheelSizeTarget w }

/-- The render condition of the result modal: showResult && winner. -/
def resultShown (s : AppState) : Bool :=
  s.showResult && s.winner.isSome

/-- The UI events: team edits, a spin-button click carrying the two
random draws, the transitionend signal, the reveal timer firing, the
modal close and spin-again buttons (only rendered while the modal is
shown), and a resize report. -/
inductive Event where
  | editTeam1 (t : Team)
  | editTeam2 (t : Team)
  | spinClick (r1 r2 : ℚ)
  | animDone
  | revealTimer
  | closeResult
  | spinAgain
  | resize (w : ℚ)

/-- One step of the event-driven state machine. -/
def step (s : AppState) : Event → AppState
  | .editTeam1 t => { s with team1 := t }
  | .editTeam2 t => { s with team2 := t }
  | .spinClick r1 r2 => requestSpin s r1 r2
  | .animDone => handleDone s
  | .revealTimer => revealFire s
  | .closeResult => if resultShown s then dismiss s else s
  | .spinAgain => if resultShown s then reset (dismiss s) else s
  | .resize w => resizeStep s w

/-- States reachable from the mount state by UI events. -/
inductive Reachable : AppState → Prop where
  | init : Reachable initState
  | next : ∀ {s : AppState} (e : Event), Reachable s → Reachable (step s e)

/-- One full spin cycle: spin() followed by its transitionend. -/
def spinResolve (s : AppState) (p : ℚ × ℚ) : AppState :=
  handleDone (spin s p.1 p.2)

/-- N sequential spins, each run to resolution. -/
def runSpins (s : AppState) (rs : List (ℚ × ℚ)) : AppState :=
  rs.foldl spinResolve s

/-- The winning-index formula exactly as the specification words it:
floor((((360 - (((targetRotation % 360) + 360) % 360)) % 360)) / 120) mod 3,
with % the JS remainder and mod the mathematical one. -/
def c1SpecIndex (t : ℚ) : ℤ :=
  ⌊jsMod (360 - jsMod (jsMod t 360 + 360) 360) 360 / 120⌋ % 3

/-- The specification's activation condition: both names non-empty after
trimming and different from the placeholder defaults. -/
def namesValid (s : AppState) : Prop :=
  jsTrim s.team1.name ≠ "" ∧ jsTrim s.team1.name ≠ "Team 1" ∧
    jsTrim s.team2.name ≠ "" ∧ jsTrim s.team2.name ≠ "Team 2"

instance (s : AppState) : Decidable (namesValid s) := by
  unfold namesValid; infer_instance

/-- A state whose wheel has previously been measured at 640 px. -/
def c7State : AppState :=
  { initState with wheelSize := 640 }

/-- A concrete valid first team. -/
def teamA : Team :=
  ⟨"Lions", "#111111"⟩

/-- A concrete valid second team. -/
def teamB : Team :=
  ⟨"Tigers", "#222222"⟩

/-- An event trace: name both teams, spin, let the animation finish, click
spin again within the 250 ms reveal window, then let the stale reveal
timer fire. -/
def c10Trace : List Event :=
  [.editTeam1 teamA, .editTeam2 teamB, .spinClick 0 0, .animDone,
    .spinClick 0 0, .revealTimer]

/-- The state reached by c10Trace. -/
def ceState : AppState :=
  c10Trace.foldl step initState

/-- A state with the result modal shown. -/
def shownState : AppState :=
  { initState with showResult := true, winner := some ⟨"Lions", .team1⟩ }

/-- A state with a spin in progress. -/
def spinningState : AppState :=
  { initState with spinning := true }

/-! Arithmetic facts about the JS remainder and the resolution index. -/

lemma jsMod_eq_of_nonneg (a n : ℚ) (hn : 0 < n) (ha : 0 ≤ a) :
    jsMod a n = n * Int.fract (a / n) := by
  have hq : 0 ≤ a / n := div_nonneg ha hn.le
  rw [jsMod, if_pos hq, Int.fract, mul_sub, mul_div_cancel₀ a hn.ne.symm]

lemma jsMod_nonneg_lt (a n : ℚ) (hn : 0 < n) (ha : 0 ≤ a) :
    0 ≤ jsMod a n ∧ jsMod a n < n := by
  rw [jsMod_eq_of_nonneg a n hn ha]
  refine ⟨mul_nonneg hn.le (Int.fract_nonneg _), ?_⟩
  calc n * Int.fract (a / n) < n * 1 :=
        mul_lt_mul_of_pos_left (Int.fract_lt_one _) hn
    _ = n := mul_one n

lemma jsMod_neg_bounds (a n : ℚ) (hn : 0 < n) (ha : a < 0) :
    -n < jsMod a n ∧ jsMod a n ≤ 0 := by
  have hq : a / n < 0 := div_neg_of_neg_of_pos ha hn
  have hceil0 : 0 ≤ (⌈a / n⌉ : ℚ) - a / n := sub_nonneg.mpr (Int.le_ceil _)
  have hceil1 : (⌈a / n⌉ : ℚ) - a / n < 1 := by
    have := Int.ceil_lt_add_one (a / n)
    linarith
  have hrw : jsMod a n = -(n * ((⌈a / n⌉ : ℚ) - a / n)) := by
    rw [jsMod, if_neg (not_le.mpr hq), mul_sub, mul_div_cancel₀ a hn.ne.symm]
    ring
  constructor
  · rw [hrw, neg_lt_neg_iff]
    calc n * ((⌈a / n⌉ : ℚ) - a / n) < n * 1 := mul_lt_mul_of_pos_left hceil1 hn
      _ = n := mul_one n
  · rw [hrw, neg_nonpos]
    exact mul_nonneg hn.le hceil0

lemma jsMod_abs_lt (a n : ℚ) (hn : 0 < n) : -n < jsMod a n ∧ jsMod a n < n := by
  rcases le_or_lt 0 a with ha | ha
  · have h := jsMod_nonneg_lt a n hn ha
    exact ⟨lt_of_lt_of_le (neg_neg_of_pos hn) h.1, h.2⟩
  · have h := jsMod_neg_bounds a n hn ha
    exact ⟨h.1, lt_of_le_of_lt h.2 hn⟩

lemma normalizedRotation_nonneg_lt (t : ℚ) :
    0 ≤ normalizedRotation t ∧ normalizedRotation t < 360 := by
  have h := jsMod_abs_lt t 360 (by norm_num)
  have h2 : 0 ≤ jsMod t 360 + 360 := by linarith [h.1]
  exact jsMod_nonneg_lt _ 360 (by norm_num) h2

lemma effectiveAngle_nonneg_lt (t : ℚ) :
    0 ≤ effectiveAngle t ∧ effectiveAngle t < 360 := by
  have h := normalizedRotation_nonneg_lt t
  have h2 : 0 ≤ 360 - normalizedRotation t := by linarith [h.2]
  exact jsMod_nonneg_lt _ 360 (by norm_num) h2

lemma floor_div120_bounds (t : ℚ) :
    0 ≤ ⌊effectiveAngle t / 120⌋ ∧ ⌊effectiveAngle t / 120⌋ < 3 := by
  have h := effectiveAngle_nonneg_lt t
  constructor
  · exact Int.floor_nonneg.mpr (div_nonneg h.1 (by norm_num))
  · refine Int.floor_lt.mpr ?_
    rw [div_lt_iff₀ (by norm_num : (0:ℚ) < 120)]
    push_cast
    linarith [h.2]

lemma winningIndex_three (t : ℚ) : winningIndex 3 t = ⌊effectiveAngle t / 120⌋ := by
  have hb := floor_div120_bounds t
  have hcast : ((360 : ℚ) / ((3 : ℕ) : ℚ)) = 120 := by norm_num
  rw [winningIndex, hcast, jsModZ, if_pos hb.1]
  exact Int.emod_eq_of_lt hb.1 (by exact_mod_cast hb.2)

lemma winningIndex_outcomes (a b : Team) (t : ℚ) :
    winningIndex (outcomes a b).length t = ⌊effectiveAngle t / 120⌋ :=
  winningIndex_three t

lemma c1SpecIndex_eq (t : ℚ) : c1SpecIndex t = ⌊effectiveAngle t / 120⌋ := by
  have hb := floor_div120_bounds t
  rw [show c1SpecIndex t = ⌊effectiveAngle t / 120⌋ % 3 from rfl]
  exact Int.emod_eq_of_lt hb.1 hb.2

lemma outcomes_get_winning (a b : Team) (t : ℚ) :
    ∃ o ∈ outcomes a b,
      (outcomes a b).get? (winningIndex (outcomes a b).length t).toNat = some o := by
  have hb := floor_div120_bounds t
  have hlt : (winningIndex (outcomes a b).length t).toNat < (outcomes a b).length := by
    rw [winningIndex_outcomes]
    simp only [outcomes, List.length]
    omega
  exact ⟨_, List.get_mem _ _ hlt, List.get?_eq_get hlt⟩

/-- C1: for every real targetRotation the spin-resolution logic selects
the winning index by floor((((360 - (((t % 360) + 360) % 360)) % 360)) / 120)
mod 3 over the ordered list [EntityA, Draw, EntityB]; floor semantics put
every angle in the half-open 120-degree span starting at 120 * index, so a
boundary angle belongs to the segment starting there; concretely
targetRotation 0 gives index 0, 150 gives 1, 2950 gives 2, and at the
boundary normalizedRotation 120 the winner is the segment starting at the
effective angle 240, namely index 2. -/
theorem resolveSpin_matches_spec_formula :
    (∀ (a b : Team) (t : ℚ),
        winningIndex (outcomes a b).length t = c1SpecIndex t) ∧
    (∀ t : ℚ,
        120 * ((winningIndex 3 t : ℤ) : ℚ) ≤ effectiveAngle t ∧
        effectiveAngle t < 120 * ((winningIndex 3 t : ℤ) : ℚ) + 120) ∧
    winningIndex 3 0 = 0 ∧ winningIndex 3 150 = 1 ∧ winningIndex 3 2950 = 2 ∧
    normalizedRotation 120 = 120 ∧ effectiveAngle 120 = 240 ∧
    winningIndex 3 120 = 2 := by
  refine ⟨?_, ?_, ?_, ?_, ?_, ?_, ?_, ?_⟩
  · intro a b t
    rw [winningIndex_outcomes, c1SpecIndex_eq]
  · intro t
    rw [winningIndex_three]
    have h1 := Int.floor_le (effectiveAngle t / 120)
    have h2 := Int.lt_floor_add_one (effectiveAngle t / 120)
    have h3 := (le_div_iff₀ (show (0:ℚ) < 120 by norm_num)).mp h1
    have h4 := (div_lt_iff₀ (show (0:ℚ) < 120 by norm_num)).mp h2
    constructor
    · linarith
    · push_cast at h4
      linarith
  · norm_num [winningIndex, effectiveAngle, normalizedRotation, jsMod, jsModZ]
  · norm_num [winningIndex, effectiveAngle, normalizedRotation, jsMod, jsModZ]
  · norm_num [winningIndex, effectiveAngle, normalizedRotation, jsMod, jsModZ]
  · norm_num [normalizedRotation, jsMod]
  · norm_num [effectiveAngle, normalizedRotation, jsMod]
  · norm_num [winningIndex, effectiveAngle, normalizedRotation, jsMod, jsModZ]

/-- C2: for every targetRotation the winning index lies in the interval
from 0 inclusive to 3 exclusive, so indexing the three-element outcome
list is in bounds and the resolved winner stored by handleDone is always
one of the three fixed outcomes, never none. -/
theorem spin_resolution_always_in_range :
    ∀ (a b : Team) (t : ℚ),
      0 ≤ winningIndex (outcomes a b).length t ∧
      winningIndex (outcomes a b).length t < 3 ∧
      ∃ o ∈ outcomes a b, ∀ s : AppState,
        (handleDone { s with pending := some (t, outcomes a b) }).winner = some o := by
  intro a b t
  have hb := floor_div120_bounds t
  refine ⟨by rw [winningIndex_outcomes]; exact hb.1,
    by rw [winningIndex_outcomes]; exact hb.2, ?_⟩
  obtain ⟨o, hmem, hget⟩ := outcomes_get_winning a b t
  exact ⟨o, hmem, fun s => by simp only [handleDone]; exact hget⟩

/-! The spin cycle: spin() followed by its transitionend. -/

lemma spinResolve_eq (s : AppState) (hs : s.spinning = false) (r1 r2 : ℚ) :
    spinResolve s (r1, r2) =
      { s with
        rotation := targetRotationOf s.rotation r1 r2
        winner := (outcomes s.team1 s.team2).get?
          (winningIndex (outcomes s.team1 s.team2).length
            (targetRotationOf s.rotation r1 r2)).toNat
        spinning := false
        showResult := false
        pending := none
        pendingReveal := true } := by
  simp [spinResolve, spin, hs, handleDone]

lemma runSpins_spec (rs : List (ℚ × ℚ)) : ∀ s : AppState, s.spinning = false →
    (runSpins s rs).spinning = false ∧
    (runSpins s rs).rotation = s.rotation + (rs.map fun p => spinIncrement p.1 p.2).sum := by
  induction rs with
  | nil =>
    intro s hs
    simpa [runSpins] using hs
  | cons p rs ih =>
    intro s hs
    obtain ⟨r1, r2⟩ := p
    have hstep := spinResolve_eq s hs r1 r2
    have h1 : (spinResolve s (r1, r2)).spinning = false := by rw [hstep]
    have h2 : (spinResolve s (r1, r2)).rotation = targetRotationOf s.rotation r1 r2 := by
      rw [hstep]
    have hrest := ih (spinResolve s (r1, r2)) h1
    have hrun : runSpins s ((r1, r2) :: rs) = runSpins (spinResolve s (r1, r2)) rs := rfl
    refine ⟨by rw [hrun]; exact hrest.1, ?_⟩
    rw [hrun, hrest.2, h2]
    simp only [List.map_cons, List.sum_cons, targetRotationOf, spinIncrement]
    ring

lemma sum_take_le (l : List ℚ) (h : ∀ x ∈ l, 0 ≤ x) (n : ℕ) :
    (l.take n).sum ≤ l.sum := by
  conv_rhs => rw [← List.take_append_drop n l]
  rw [List.sum_append]
  have hd : 0 ≤ (l.drop n).sum :=
    List.sum_nonneg fun x hx => h x (List.drop_subset n l hx)
  linarith

lemma spinIncrement_lb (r1 r2 : ℚ) (h1 : 0 ≤ r1) (h3 : 0 ≤ r2) :
    2160 ≤ spinIncrement r1 r2 := by
  have hf : (6 : ℤ) ≤ fullSpins r1 := by
    have h : (0 : ℤ) ≤ ⌊r1 * 3⌋ := Int.floor_nonneg.mpr (by positivity)
    unfold fullSpins
    omega
  have hfq : (6 : ℚ) ≤ ((fullSpins r1 : ℤ) : ℚ) := by exact_mod_cast hf
  have hr : 0 ≤ randomAngle r2 := by unfold randomAngle; positivity
  have hm := mul_le_mul_of_nonneg_right hfq (show (0:ℚ) ≤ 360 by norm_num)
  unfold spinIncrement
  linarith

lemma spinIncrement_ub (r1 r2 : ℚ) (h2 : r1 < 1) (h4 : r2 < 1) :
    spinIncrement r1 r2 < 3240 := by
  have hf : fullSpins r1 ≤ 8 := by
    have h : ⌊r1 * 3⌋ < 3 := Int.floor_lt.mpr (by push_cast; linarith)
    unfold fullSpins
    omega
  have hfq : ((fullSpins r1 : ℤ) : ℚ) ≤ 8 := by exact_mod_cast hf
  have hr : randomAngle r2 < 360 := by
    have := mul_lt_mul_of_pos_right h4 (show (0:ℚ) < 360 by norm_num)
    unfold randomAngle
    linarith
  have hm := mul_le_mul_of_nonneg_right hfq (show (0:ℚ) ≤ 360 by norm_num)
  unfold spinIncrement
  linarith

/-- C3: starting from cumulative rotation 0 in a non-spinning state, each
resolved spin stores exactly the target rotation computed at that spin's
start; after N sequential spins the stored rotation is the sum of the N
increments fullSpins * 360 + randomAngle, and with the random draws in
range every prefix of the run stays below or at the final value, so the
rotation never decreases and is never reduced modulo anything. -/
theorem cumulative_rotation_is_sum_of_increments (s : AppState)
    (rs : List (ℚ × ℚ)) (hs : s.spinning = false) (h0 : s.rotation = 0)
    (hr : ∀ p ∈ rs, 0 ≤ p.1 ∧ p.1 < 1 ∧ 0 ≤ p.2 ∧ p.2 < 1) :
    (∀ r1 r2 : ℚ,
        (spinResolve s (r1, r2)).rotation = targetRotationOf s.rotation r1 r2) ∧
    (∀ n : ℕ, ∀ hn : n < rs.length,
        (runSpins s (rs.take (n + 1))).rotation =
          targetRotationOf (runSpins s (rs.take n)).rotation
            (rs.get ⟨n, hn⟩).1 (rs.get ⟨n, hn⟩).2) ∧
    (runSpins s rs).rotation = (rs.map fun p => spinIncrement p.1 p.2).sum ∧
    (∀ n : ℕ, (runSpins s (rs.take n)).rotation ≤ (runSpins s rs).rotation) := by
  refine ⟨?_, ?_, ?_, ?_⟩
  · intro r1 r2
    rw [spinResolve_eq s hs r1 r2]
  · intro n hn
    have htake : rs.take (n + 1) = rs.take n ++ [rs.get ⟨n, hn⟩] := by
      rw [List.take_succ, List.getElem?_eq_getElem hn]
      rfl
    have hprev := runSpins_spec (rs.take n) s hs
    have happ : runSpins s (rs.take (n + 1)) =
        spinResolve (runSpins s (rs.take n)) (rs.get ⟨n, hn⟩) := by
      rw [htake, runSpins, List.foldl_append]
      rfl
    rw [happ, show rs.get ⟨n, hn⟩ = ((rs.get ⟨n, hn⟩).1, (rs.get ⟨n, hn⟩).2) from rfl,
      spinResolve_eq _ hprev.1]
  · rw [(runSpins_spec rs s hs).2, h0, zero_add]
  · intro n
    rw [(runSpins_spec (rs.take n) s hs).2, (runSpins_spec rs s hs).2]
    have hmap : (rs.take n).map (fun p => spinIncrement p.1 p.2) =
        (rs.map fun p => spinIncrement p.1 p.2).take n := List.map_take _ _ _
    rw [hmap]
    have hnn : ∀ x ∈ rs.map fun p => spinIncrement p.1 p.2, 0 ≤ x := by
      intro x hx
      obtain ⟨p, hp, rfl⟩ := List.mem_map.mp hx
      have h := hr p hp
      linarith [spinIncrement_lb p.1 p.2 h.1 h.2.2.1]
    linarith [sum_take_le _ hnn n]

/-- Witness for C3: two spins with draws (0, 0) and (0, 0) from the mount
state accumulate to the sum of their increments. -/
theorem cumulative_rotation_is_sum_of_increments_witness :
    (runSpins initState [((0:ℚ), (0:ℚ)), ((0:ℚ), (0:ℚ))]).rotation =
      ([((0:ℚ), (0:ℚ)), ((0:ℚ), (0:ℚ))].map fun p => spinIncrement p.1 p.2).sum :=
  (cumulative_rotation_is_sum_of_increments initState
    [((0:ℚ), (0:ℚ)), ((0:ℚ), (0:ℚ))] rfl rfl (by decide)).2.2.1

/-- C4: with both random draws in the unit interval, fullSpins is 6, 7 or
8, randomAngle lies in the interval from 0 inclusive to 360 exclusive,
the target rotation is the cumulative rotation plus fullSpins * 360 plus
randomAngle, and the per-spin increment lies in the interval from 2160
inclusive to 3240 exclusive. -/
theorem startSpin_increment_range (r1 r2 c : ℚ)
    (h1 : 0 ≤ r1) (h2 : r1 < 1) (h3 : 0 ≤ r2) (h4 : r2 < 1) :
    (fullSpins r1 = 6 ∨ fullSpins r1 = 7 ∨ fullSpins r1 = 8) ∧
    0 ≤ randomAngle r2 ∧ randomAngle r2 < 360 ∧
    targetRotationOf c r1 r2 = c + ((fullSpins r1 : ℤ) : ℚ) * 360 + randomAngle r2 ∧
    2160 ≤ spinIncrement r1 r2 ∧ spinIncrement r1 r2 < 3240 := by
  refine ⟨?_, ?_, ?_, rfl, spinIncrement_lb r1 r2 h1 h3, spinIncrement_ub r1 r2 h2 h4⟩
  · have hlo : (0 : ℤ) ≤ ⌊r1 * 3⌋ := Int.floor_nonneg.mpr (by positivity)
    have hhi : ⌊r1 * 3⌋ < 3 := Int.floor_lt.mpr (by push_cast; linarith)
    unfold fullSpins
    omega
  · unfold randomAngle
    positivity
  · have := mul_lt_mul_of_pos_right h4 (show (0:ℚ) < 360 by norm_num)
    unfold randomAngle
    linarith

/-- Witness for C4 at r1 = 0, r2 = 0, c = 0. -/
theorem startSpin_increment_range_witness :
    (fullSpins 0 = 6 ∨ fullSpins 0 = 7 ∨ fullSpins 0 = 8) ∧
    0 ≤ randomAngle 0 ∧ randomAngle 0 < 360 ∧
    targetRotationOf 0 0 0 = 0 + ((fullSpins 0 : ℤ) : ℚ) * 360 + randomAngle 0 ∧
    2160 ≤ spinIncrement 0 0 ∧ spinIncrement 0 0 < 3240 :=
  startSpin_increment_range 0 0 0 (by decide) (by decide) (by decide) (by decide)

/-- C5: while a spin is in progress, a further spin request is silently
ignored: both spin() itself and the click path through the disabled
button leave the state (rotation, flags, winner, everything) unchanged. -/
theorem spin_while_spinning_is_noop (s : AppState) (r1 r2 : ℚ)
    (h : s.spinning = true) :
    spin s r1 r2 = s ∧ requestSpin s r1 r2 = s := by
  have hd : disable s = true := by
    unfold disable
    rw [h]
    simp
  constructor
  · unfold spin
    rw [h]
    simp
  · unfold requestSpin
    rw [hd]
    simp

/-- Witness for C5 at a concrete spinning state. -/
theorem spin_while_spinning_is_noop_witness :
    spin spinningState 0 0 = spinningState ∧
    requestSpin spinningState 0 0 = spinningState :=
  spin_while_spinning_is_noop spinningState 0 0 rfl

lemma disable_eq_false_iff (s : AppState) :
    disable s = false ↔ (s.spinning = false ∧ namesValid s) := by
  simp [disable, namesValid, and_assoc]

/-- C6: a spin request with a blank or still-default team name is a no-op
for every random seed, because the button is rendered disabled; in a
non-spinning state the button is enabled exactly when both names are
non-empty after trimming and different from the placeholder defaults. -/
theorem invalid_names_block_spin :
    (∀ (s : AppState) (r1 r2 : ℚ), ¬ namesValid s → requestSpin s r1 r2 = s) ∧
    (∀ s : AppState, s.spinning = false → (disable s = false ↔ namesValid s)) := by
  constructor
  · intro s r1 r2 hnv
    have hd : disable s = true := by
      cases hd : disable s with
      | true => rfl
      | false => exact absurd ((disable_eq_false_iff s).mp hd).2 hnv
    unfold requestSpin
    rw [hd]
    simp
  · intro s hs
    rw [disable_eq_false_iff]
    simp [hs]

/-- Witness for C6: at the mount state the names are the unmodified
placeholders, so a click changes nothing and the button is disabled. -/
theorem invalid_names_block_spin_witness :
    requestSpin initState 0 0 = initState ∧
    (disable initState = false ↔ namesValid initState) :=
  ⟨invalid_names_block_spin.1 initState 0 0 (by decide),
    invalid_names_block_spin.2 initState rfl⟩

/-- Counterexample to C7: a resize report of width 0 reaching a state
whose wheel was last measured at 640 px does not retain that value: the
callback recomputes the size unconditionally, so it drops to 320. -/
theorem resize_nonpositive_changes_geometry :
    (resizeStep c7State 0).wheelSize ≠ c7State.wheelSize := by
  norm_num [resizeStep, wheelSizeTarget, clamp, c7State, initState]

/-- C7 amended: a resize report with non-positive width is not ignored;
the wheel size is recomputed as clamp(floor(w * 0.98), 320, 640), which
equals the minimum 320 for every non-positive width, and nothing else in
the state changes. -/
theorem resize_nonpositive_clamps_to_min (s : AppState) (w : ℚ) (hw : w ≤ 0) :
    (resizeStep s w).wheelSize = 320 ∧
    (resizeStep s w).team1 = s.team1 ∧ (resizeStep s w).team2 = s.team2 ∧
    (resizeStep s w).spinning = s.spinning ∧ (resizeStep s w).rotation = s.rotation ∧
    (resizeStep s w).winner = s.winner ∧ (resizeStep s w).showResult = s.showResult := by
  refine ⟨?_, rfl, rfl, rfl, rfl, rfl, rfl⟩
  have hm : w * 0.98 ≤ 0 := by nlinarith
  have hf : ⌊w * 0.98⌋ ≤ 0 := by
    have h := Int.floor_le_floor hm
    simpa using h
  have hfq : ((⌊w * 0.98⌋ : ℤ) : ℚ) ≤ 0 := by exact_mod_cast hf
  show clamp (⌊w * 0.98⌋ : ℚ) 320 640 = 320
  unfold clamp
  rw [min_eq_right (le_trans hfq (by norm_num)), max_eq_left (le_trans hfq (by norm_num))]

/-- Witness for C7 amended: width 0 on the 640 px state yields 320. -/
theorem resize_nonpositive_clamps_to_min_witness :
    (resizeStep c7State 0).wheelSize = 320 :=
  (resize_nonpositive_clamps_to_min c7State 0 (by decide)).1

/-- C8: the computed wheel size clamp(floor(w * 0.98), 320, 640) lies in
the interval from 320 to 640 for every container width, with width 10000
giving 640 and width 50 giving 320. -/
theorem computeWheelSize_always_clamped :
    (∀ w : ℚ, 320 ≤ wheelSizeTarget w ∧ wheelSizeTarget w ≤ 640) ∧
    wheelSizeTarget 10000 = 640 ∧ wheelSizeTarget 50 = 320 := by
  refine ⟨fun w => ?_, by norm_num [wheelSizeTarget, clamp],
    by norm_num [wheelSizeTarget, clamp]⟩
  unfold wheelSizeTarget clamp
  exact ⟨le_max_left _ _, max_le (by norm_num) (min_le_left _ _)⟩

/-- C9: dismissing the result via reset clears the winner and the reveal
flag and changes nothing else: rotation, spin flag, teams, wheel size,
the registered listener and the reveal timer are all retained. -/
theorem reset_returns_to_idle_keeping_wheel (s : AppState) :
    (reset s).winner = none ∧ (reset s).showResult = false ∧
    (reset s).rotation = s.rotation ∧ (reset s).spinning = s.spinning ∧
    (reset s).team1 = s.team1 ∧ (reset s).team2 = s.team2 ∧
    (reset s).wheelSize = s.wheelSize ∧ (reset s).pending = s.pending ∧
    (reset s).pendingReveal = s.pendingReveal :=
  ⟨rfl, rfl, rfl, rfl, rfl, rfl, rfl, rfl, rfl⟩

lemma reachable_run (es : List Event) (s : AppState) (h : Reachable s) :
    Reachable (es.foldl step s) := by
  induction es generalizing s with
  | nil => exact h
  | cons e es ih => exact ih _ (Reachable.next e h)

/-- Counterexample to C10: the 250 ms reveal timer is never cancelled, so
clicking spin again inside the reveal window reaches a state where
showResult is true while winner is null: after naming the teams, one full
spin, a second spin click right after resolution and the stale timer
firing, the reveal flag is set with no winner stored. -/
theorem stale_reveal_shows_without_winner :
    Reachable ceState ∧ ceState.showResult = true ∧ ceState.winner = none :=
  ⟨reachable_run c10Trace initState Reachable.init, by decide, by decide⟩

/-- C10 amended: the result surface can never be shown without an outcome
because the render condition is showResult && winner; showResult alone
does not imply a winner exists (see the stale-timer counterexample).
Moreover starting a spin clears winner and showResult together,
resolution stores a winner and schedules the reveal, and reset clears
both flags. -/
theorem result_surface_requires_winner :
    (∀ s : AppState, resultShown s = true → s.winner ≠ none) ∧
    (∀ (s : AppState) (r1 r2 : ℚ), s.spinning = false →
        (spin s r1 r2).winner = none ∧ (spin s r1 r2).showResult = false) ∧
    (∀ (s : AppState) (a b : Team) (t : ℚ),
        (handleDone { s with pending := some (t, outcomes a b) }).winner ≠ none ∧
        (handleDone { s with pending := some (t, outcomes a b) }).pendingReveal = true) ∧
    (∀ s : AppState, (reset s).winner = none ∧ (reset s).showResult = false) := by
  refine ⟨?_, ?_, ?_, fun s => ⟨rfl, rfl⟩⟩
  · intro s h
    simp only [resultShown, Bool.and_eq_true] at h
    exact Option.ne_none_iff_isSome.mpr h.2
  · intro s r1 r2 hs
    constructor <;> simp [spin, hs]
  · intro s a b t
    obtain ⟨o, hmem, hget⟩ := outcomes_get_winning a b t
    constructor
    · have hw : (handleDone { s with pending := some (t, outcomes a b) }).winner = some o := by
        simp only [handleDone]
        exact hget
      rw [hw]
      exact Option.some_ne_none o
    · simp [handleDone]

/-- Witness for C10 amended: a state with the modal shown has a winner,
and a fresh spin from the mount state clears winner and reveal flag. -/
theorem result_surface_requires_winner_witness :
    shownState.winner ≠ none ∧
    (spin initState 0 0).winner = none ∧ (spin initState 0 0).showResult = false :=
  ⟨result_surface_requires_winner.1 shownState rfl,
    (result_surface_requires_winner.2.1 initState 0 0 rfl).1,
    (result_surface_requires_winner.2.1 initState 0 0 rfl).2⟩

end SpinTheMatch
